import Mathlib

/-
Verification of the horoscope acquisition pipeline
(src/parser.py, src/translator.py, src/main.py).

The Python code is shallowly embedded:
 - HTML documents are rose trees (`Node`); the BeautifulSoup operations
   used by the code (`find_all`, `find`, `.text`) are translated over them.
 - the Python string methods used by the code (`strip`, `lower`,
   `replace`, `split`, `startswith`, substring test) are implemented as
   structurally recursive functions over the character list of a string,
   so that all definitions evaluate inside the kernel.
 - network effects are explicit: an HTTP fetch is an oracle trace
   `List (Option Response)` listing the outcome each successive request
   would receive, and the translation service is an oracle
   `String → Option String` giving the completion text the remote call
   would return for a source text (`none` models a raised error).
 - Python dicts over string keys are association lists updated by
   `upsert`, which preserves insertion order like a Python dict.
-/

/-! ## Python string primitives (ASCII model) -/

/-- Characters removed by Python `str.strip()`. -/
def isPyWhitespace (c : Char) : Bool :=
  c == ' ' || c == '\t' || c == '\n' || c == '\r' || c == '\x0b' || c == '\x0c'

/-- Python `s.strip()`: drop whitespace at both ends. -/
def pyStrip (s : String) : String :=
  ⟨((s.data.dropWhile isPyWhitespace).reverse.dropWhile isPyWhitespace).reverse⟩

/-- ASCII lower-casing of one character (the inputs the code lowers are ASCII). -/
def lowerChar (c : Char) : Char :=
  if 'A' ≤ c ∧ c ≤ 'Z' then Char.ofNat (c.toNat + 32) else c

/-- Python `s.lower()` (ASCII model). -/
def pyLower (s : String) : String :=
  ⟨s.data.map lowerChar⟩

/-- Does `pat` occur as a prefix of `s` (on character lists)? -/
def listStartsWith : List Char → List Char → Bool
  | _, [] => true
  | [], _ :: _ => false
  | c :: cs, p :: ps => c == p && listStartsWith cs ps

/-- Does `pat` occur as a contiguous sublist of `s`? -/
def listContainsSub : List Char → List Char → Bool
  | [], pat => pat.isEmpty
  | c :: rest, pat => listStartsWith (c :: rest) pat || listContainsSub rest pat

/-- Python `sub in s`. -/
def pyContains (s sub : String) : Bool :=
  listContainsSub s.data sub.data

/-- Python `s.startswith(pre)`. -/
def pyStartsWith (s pre : String) : Bool :=
  listStartsWith s.data pre.data

/-- Replace every occurrence of `pat` (non-empty) by `rep`; the fuel is an upper
bound on the number of characters still to be consumed. -/
def replaceLoop (pat rep : List Char) : Nat → List Char → List Char
  | _, [] => []
  | 0, s => s
  | fuel + 1, c :: rest =>
    if listStartsWith (c :: rest) pat then
      rep ++ replaceLoop pat rep fuel ((c :: rest).drop pat.length)
    else c :: replaceLoop pat rep fuel rest

/-- Python `s.replace(pat, rep)` (all occurrences). -/
def pyReplace (s pat rep : String) : String :=
  if pat.data.isEmpty then s else ⟨replaceLoop pat.data rep.data s.data.length s.data⟩

/-- Remove the first occurrence of the non-empty pattern `pat`. -/
def replaceFirstLoop (pat : List Char) : List Char → List Char
  | [] => []
  | c :: rest =>
    if listStartsWith (c :: rest) pat then (c :: rest).drop pat.length
    else c :: replaceFirstLoop pat rest

/-- Python `s.replace(pat, "", 1)`: delete the first occurrence of `pat`. -/
def pyReplaceFirst (s pat : String) : String :=
  if pat.data.isEmpty then s else ⟨replaceFirstLoop pat.data s.data⟩

/-- Split on a non-empty separator; fuel as in `replaceLoop`. -/
def splitLoop (sep : List Char) : Nat → List Char → List Char → List (List Char)
  | _, acc, [] => [acc.reverse]
  | 0, acc, s => [acc.reverse ++ s]
  | fuel + 1, acc, c :: rest =>
    if listStartsWith (c :: rest) sep then
      acc.reverse :: splitLoop sep fuel [] ((c :: rest).drop sep.length)
    else splitLoop sep fuel (c :: acc) rest

/-- Python `s.split(sep)` for a non-empty separator. -/
def pySplit (s sep : String) : List String :=
  if sep.data.isEmpty then [s] else (splitLoop sep.data s.data.length [] s.data).map (fun cs => ⟨cs⟩)

/-! ## HTML documents and the BeautifulSoup operations the code uses -/

/-- A parsed HTML document: a text node, or an element with a tag name,
a list of CSS classes, and children. -/
inductive Node where
  | text : String → Node
  | elem : String → List String → List Node → Node

mutual

/-- BeautifulSoup `.text`: concatenation of all descendant strings in order. -/
def Node.innerText : Node → String
  | Node.text s => s
  | Node.elem _ _ cs => innerTextList cs

def innerTextList : List Node → String
  | [] => ""
  | c :: cs => Node.innerText c ++ innerTextList cs

end

mutual

/-- All proper descendants of a node in document (pre-)order, the order in
which BeautifulSoup `find` and `find_all` report matches. -/
def Node.descendants : Node → List Node
  | Node.text _ => []
  | Node.elem _ _ cs => descList cs

def descList : List Node → List Node
  | [] => []
  | c :: cs => c :: Node.descendants c ++ descList cs

end

/-- Is this node an element with the given tag? -/
def Node.isElem (n : Node) (tag : String) : Bool :=
  match n with
  | Node.elem t _ _ => t == tag
  | Node.text _ => false

/-- Does this element carry the given CSS class (BeautifulSoup `class_=` match)? -/
def Node.hasCls (n : Node) (c : String) : Bool :=
  match n with
  | Node.elem _ cls _ => cls.contains c
  | Node.text _ => false

/-- BeautifulSoup `root.find_all(tag, class_=cls)`. -/
def findAllTagCls (tag cls : String) (root : Node) : List Node :=
  root.descendants.filter (fun n => n.isElem tag && n.hasCls cls)

/-- BeautifulSoup `root.find(tag)`. -/
def findTag (tag : String) (root : Node) : Option Node :=
  (root.descendants.filter (fun n => n.isElem tag)).head?

/-- BeautifulSoup `root.find(tag, class_=cls)`. -/
def findTagCls (tag cls : String) (root : Node) : Option Node :=
  (findAllTagCls tag cls root).head?

/-! ## The category registry (src/parser.py, ZODIAC_SIGNS) -/

/-- The `ZODIAC_SIGNS` dict of src/parser.py: identifier to display name,
in source order. -/
def zodiacSigns : List (String × String) :=
  [("aries", "Овен"), ("taurus", "Телец"), ("gemini", "Близнецы"),
   ("cancer", "Рак"), ("leo", "Лев"), ("virgo", "Дева"),
   ("libra", "Весы"), ("scorpio", "Скорпион"), ("sagittarius", "Стрелец"),
   ("capricorn", "Козерог"), ("aquarius", "Водолей"), ("pisces", "Рыбы")]

/-- `ZODIAC_SIGNS.keys()` in iteration order. -/
def zodiacSignKeys : List String :=
  zodiacSigns.map Prod.fst

/-! ## Python dicts as insertion-ordered association lists -/

/-- Python `d[k] = v` on a string-keyed dict: replace the binding in place
if the key is present, otherwise append it. -/
def upsert : List (String × String) → String → String → List (String × String)
  | [], k, v => [(k, v)]
  | p :: rest, k, v => if p.1 = k then (k, v) :: rest else p :: upsert rest k v

/-- One iteration of a loop that conditionally produces a key-value pair and
stores it in the dict. -/
def collectStep {α : Type} (f : α → Option (String × String))
    (m : List (String × String)) (x : α) : List (String × String) :=
  match f x with
  | some (s, t) => upsert m s t
  | none => m

/-- Run such a loop over all of `xs`, starting from the empty dict. -/
def collectEntries {α : Type} (f : α → Option (String × String)) (xs : List α) :
    List (String × String) :=
  xs.foldl (collectStep f) []

/-! ## src/parser.py — HoroscopeParser -/

/-- Lines 83-85 of src/parser.py: the sign of a block is taken from its first
`h3`, else its first `h2`, else its first `span.sign-name`, stripped and
lower-cased; `none` when no such element exists. -/
def signOf (block : Node) : Option String :=
  match findTag "h3" block <|> findTag "h2" block <|> findTagCls "span" "sign-name" block with
  | some signElem => some (pyLower (pyStrip signElem.innerText))
  | none => none

/-- Lines 88-96 of src/parser.py: the text of a block is its first `p`, else
its first `div.horoscope-text`, stripped; if that yields nothing, the whole
block text with "Read More" removed. -/
def textOf (block : Node) : String :=
  let fromElem :=
    match findTag "p" block <|> findTagCls "div" "horoscope-text" block with
    | some textElem => pyStrip textElem.innerText
    | none => ""
  if fromElem = "" then pyStrip (pyReplace (pyStrip block.innerText) "Read More" "")
  else fromElem

/-- Lines 78-100 of src/parser.py, one loop iteration: the (sign, text) pair a
block contributes to the dict, if any.  A pair is stored exactly when both the
sign and the text are non-empty and the sign is a known zodiac key. -/
def blockEntry (block : Node) : Option (String × String) :=
  match signOf block with
  | none => none
  | some sign =>
    let text := textOf block
    if sign ≠ "" ∧ text ≠ "" ∧ sign ∈ zodiacSignKeys then some (sign, text) else none

/-- The whole block loop of `get_all_horoscopes` (lines 78-100). -/
def processBlocks (blocks : List Node) : List (String × String) :=
  collectEntries blockEntry blocks

/-- Lines 134-150 of src/parser.py, inner loop body of `_alternative_parsing`:
what one link contributes for `sign`.  The link must contain the sign name;
its text is stripped, the first zodiac name contained in it is deleted (after
lower-casing), "read more" is removed, and the remainder is kept if non-empty. -/
def processLink (sign : String) (link : Node) : Option String :=
  if pyContains (pyLower link.innerText) sign then
    let text0 := pyStrip link.innerText
    let text1 :=
      match zodiacSignKeys.find? (fun zodiac => pyContains (pyLower text0) zodiac) with
      | some zodiac => pyReplaceFirst (pyLower text0) zodiac
      | none => text0
    let text2 := pyStrip (pyReplace text1 "read more" "")
    if text2 = "" then none else some text2
  else none

/-- The entry `_alternative_parsing` stores for `sign`: the contribution of the
first link that both mentions the sign and leaves non-empty text. -/
def altEntry (links : List Node) (sign : String) : Option (String × String) :=
  (links.findSome? (processLink sign)).map (fun t => (sign, t))

/-- Lines 117-157 of src/parser.py: `_alternative_parsing(soup)`.  Scans all
`a` elements, looking for one per zodiac sign. -/
def alternativeParsing (soup : Node) : List (String × String) :=
  collectEntries (altEntry (soup.descendants.filter (fun n => n.isElem "a"))) zodiacSignKeys

/-- Which branch of `get_all_horoscopes` produced the returned dict. -/
inductive Strategy where
  | structuredDiv
  | cardLinks
  | linkScan
  | noBlocks
deriving DecidableEq

/-- Lines 67-111 of src/parser.py: the part of `get_all_horoscopes` that runs
on the fetched page, instrumented with the branch that produced the result:
`div.horoscope-content` blocks, else `a.horoscope-card` blocks; no blocks at
all means an empty dict; a block pass that stores nothing falls back to
`_alternative_parsing`. -/
def parsePageWithStrategy (soup : Node) : List (String × String) × Strategy :=
  let divBlocks := findAllTagCls "div" "horoscope-content" soup
  let (horoscopeBlocks, primary) :=
    if divBlocks.isEmpty then (findAllTagCls "a" "horoscope-card" soup, Strategy.cardLinks)
    else (divBlocks, Strategy.structuredDiv)
  if horoscopeBlocks.isEmpty then ([], Strategy.noBlocks)
  else
    let horoscopes := processBlocks horoscopeBlocks
    if horoscopes.length = 0 then (alternativeParsing soup, Strategy.linkScan)
    else (horoscopes, primary)

/-- The dict `get_all_horoscopes` builds from a fetched page. -/
def parsePage (soup : Node) : List (String × String) :=
  (parsePageWithStrategy soup).1

/-- An HTTP response: status code and parsed body. -/
structure Response where
  status : Nat
  body : Node

/-- Lines 46-115 of src/parser.py: `get_all_horoscopes()`.  The argument is
the trace of outcomes successive HTTP requests would receive (`none` is a
transport-level failure raised by `session.get`).  The code performs exactly
one request (line 57); `raise_for_status` raises on a 4xx/5xx status, and any
exception is caught and turned into an empty dict.  Returns the dict together
with the number of requests performed. -/
def getAllHoroscopes (net : List (Option Response)) : List (String × String) × Nat :=
  match net with
  | [] => ([], 1)
  | none :: _ => ([], 1)
  | some response :: _ =>
    (if 400 ≤ response.status ∧ response.status < 600 then [] else parsePage response.body, 1)

/-! ## src/translator.py — HoroscopeTranslator -/

/-- Lines 59-95 of src/translator.py: `translate_text(text)`.  The oracle maps
a source text to the completion content the remote chat call would return for
it (`none` models a raised error, including a missing content field).  Empty
input is rejected; the returned content is stripped. -/
def translateText (oracle : String → Option String) (text : String) : Option String :=
  if text = "" then none
  else
    match oracle text with
    | none => none
    | some content => some (pyStrip content)

/-- Lines 46-56 of src/translator.py, one loop iteration of
`translate_horoscopes`: the pair stored for `(sign, text)`, kept only when the
translation succeeded and is non-empty (`if translated_text:`). -/
def translatedEntry (oracle : String → Option String) (p : String × String) :
    Option (String × String) :=
  match translateText oracle p.2 with
  | some translated => if translated = "" then none else some (p.1, translated)
  | none => none

/-- Lines 34-57 of src/translator.py: `translate_horoscopes(horoscopes)`. -/
def translateHoroscopes (oracle : String → Option String)
    (horoscopes : List (String × String)) : List (String × String) :=
  collectEntries (translatedEntry oracle) horoscopes

/-! ## src/main.py — HoroscopeBot -/

/-- Lines 57-93 of src/main.py: `fetch_and_translate_horoscopes()`.  Takes the
bot cache (`self.horoscopes_cache`) and returns the new cache together with
the returned dict.  The cache is overwritten only on line 87, after both the
fetch and the translation produced something; either stage coming back empty
returns an empty dict with the cache untouched. -/
def fetchAndTranslateHoroscopes (net : List (Option Response))
    (oracle : String → Option String) (cache : List (String × String)) :
    List (String × String) × List (String × String) :=
  let horoscopesEn := (getAllHoroscopes net).1
  if horoscopesEn.isEmpty then (cache, [])
  else
    let horoscopesRu := translateHoroscopes oracle horoscopesEn
    if horoscopesRu.isEmpty then (cache, [])
    else (horoscopesRu, horoscopesRu)

/-- What `handle_sign_selection` sends back to the user. -/
inductive Reply where
  | ignored
  | unavailable
  | horoscope : String → String → Reply
deriving DecidableEq

/-- Lines 143-167 of src/main.py: `handle_sign_selection`.  Returns the reply,
the cache afterwards, and how many times `fetch_and_translate_horoscopes` was
invoked (0 or 1).  Callback data not starting with "horoscope:" is ignored;
an empty cache triggers one refresh before the lookup; a sign missing from
the cache (or bound to an empty text) reports unavailability. -/
def handleSignSelection (net : List (Option Response))
    (oracle : String → Option String) (callbackData : String)
    (cache : List (String × String)) : Reply × List (String × String) × Nat :=
  if pyStartsWith callbackData "horoscope:" then
    let signId := (pySplit callbackData ":").getD 1 ""
    let (cache1, refreshes) :=
      if cache.isEmpty then ((fetchAndTranslateHoroscopes net oracle cache).2, 1)
      else (cache, 0)
    match cache1.lookup signId with
    | some horoscopeText =>
      if horoscopeText = "" then (Reply.unavailable, cache1, refreshes)
      else (Reply.horoscope ((zodiacSigns.lookup signId).getD signId) horoscopeText, cache1, refreshes)
    | none => (Reply.unavailable, cache1, refreshes)
  else (Reply.ignored, cache, 0)

/-! ## Dictionary lemmas -/

theorem upsert_lookup_self (m : List (String × String)) (k v : String) :
    (upsert m k v).lookup k = some v := by
  induction m with
  | nil => simp [upsert, List.lookup]
  | cons p rest ih =>
    obtain ⟨a, b⟩ := p
    by_cases h : a = k
    · subst h
      simp [upsert, List.lookup]
    · have hka : (k == a) = false := beq_eq_false_iff_ne.mpr (Ne.symm h)
      simp [upsert, h, List.lookup, hka, ih]

theorem upsert_lookup_other (m : List (String × String)) (k v k2 : String) (h : k2 ≠ k) :
    (upsert m k v).lookup k2 = m.lookup k2 := by
  have hkk : (k2 == k) = false := beq_eq_false_iff_ne.mpr h
  induction m with
  | nil => simp [upsert, List.lookup, hkk]
  | cons p rest ih =>
    obtain ⟨a, b⟩ := p
    by_cases ha : a = k
    · subst ha
      simp [upsert, List.lookup, hkk]
    · simp [upsert, ha, List.lookup, ih]

theorem mem_upsert (m : List (String × String)) (k v : String) (q : String × String)
    (h : q ∈ upsert m k v) : q ∈ m ∨ q = (k, v) := by
  induction m with
  | nil => simp [upsert] at h; simp [h]
  | cons p rest ih =>
    by_cases hp : p.1 = k
    · simp [upsert, hp] at h
      rcases h with h | h
      · right; simp [h]
      · left; simp [h]
    · simp [upsert, hp] at h
      rcases h with h | h
      · left; simp [h]
      · rcases ih h with h2 | h2
        · left; simp [h2]
        · right; exact h2

theorem upsert_eq_append (m : List (String × String)) (k v : String)
    (h : ∀ p ∈ m, p.1 ≠ k) : upsert m k v = m ++ [(k, v)] := by
  induction m with
  | nil => simp [upsert]
  | cons p rest ih =>
    have hp : p.1 ≠ k := h p (by simp)
    simp [upsert, hp]
    exact ih (fun q hq => h q (by simp [hq]))

theorem lookup_eq_none_of_keys (m : List (String × String)) (k : String)
    (h : ∀ p ∈ m, p.1 ≠ k) : m.lookup k = none := by
  induction m with
  | nil => simp [List.lookup]
  | cons p rest ih =>
    obtain ⟨a, b⟩ := p
    have ha : (k == a) = false :=
      beq_eq_false_iff_ne.mpr (Ne.symm (h (a, b) (by simp)))
    simp [List.lookup, ha]
    intro a2 b2 hq hk
    exact h (a2, b2) (by simp [hq]) hk.symm

theorem lookup_ne_nil (m : List (String × String)) (k t : String)
    (h : m.lookup k = some t) : m ≠ [] := by
  intro hm
  subst hm
  simp [List.lookup] at h

/-! ## Lemmas about dict-building loops -/

theorem mem_foldl_collect {α : Type} (f : α → Option (String × String)) (xs : List α)
    (acc : List (String × String)) (q : String × String)
    (h : q ∈ xs.foldl (collectStep f) acc) : q ∈ acc ∨ ∃ x ∈ xs, f x = some q := by
  induction xs generalizing acc with
  | nil => simp at h; exact Or.inl h
  | cons y ys ih =>
    simp only [List.foldl_cons] at h
    rcases ih (collectStep f acc y) h with h2 | h2
    · match hfy : f y with
      | none =>
        rw [collectStep, hfy] at h2
        exact Or.inl h2
      | some (s, t) =>
        rw [collectStep, hfy] at h2
        rcases mem_upsert acc s t q h2 with h3 | h3
        · exact Or.inl h3
        · exact Or.inr ⟨y, by simp, by rw [hfy, h3]⟩
    · rcases h2 with ⟨x, hx, hfx⟩
      exact Or.inr ⟨x, by simp [hx], hfx⟩

theorem lookup_foldl_collect_frame {α : Type} (f : α → Option (String × String)) (xs : List α)
    (acc : List (String × String)) (k : String)
    (h : ∀ x ∈ xs, ∀ s t, f x = some (s, t) → s ≠ k) :
    (xs.foldl (collectStep f) acc).lookup k = acc.lookup k := by
  induction xs generalizing acc with
  | nil => simp
  | cons y ys ih =>
    simp only [List.foldl_cons]
    rw [ih (collectStep f acc y) (fun x hx => h x (by simp [hx]))]
    match hfy : f y with
    | none => rw [collectStep, hfy]
    | some (s, t) =>
      rw [collectStep, hfy]
      exact upsert_lookup_other acc s t k (Ne.symm (h y (by simp) s t hfy))

theorem foldl_collect_key_present {α : Type} (f : α → Option (String × String)) (xs : List α)
    (acc : List (String × String)) (k : String)
    (h : (∃ t, acc.lookup k = some t) ∨ ∃ x ∈ xs, ∃ t, f x = some (k, t)) :
    ∃ t2, (xs.foldl (collectStep f) acc).lookup k = some t2 := by
  induction xs generalizing acc with
  | nil =>
    simp only [List.foldl_nil]
    rcases h with h | h
    · exact h
    · simp at h
  | cons y ys ih =>
    simp only [List.foldl_cons]
    apply ih (collectStep f acc y)
    rcases h with ⟨t, ht⟩ | ⟨x, hx, t, hfx⟩
    · left
      match hfy : f y with
      | none =>
        rw [collectStep, hfy]
        exact ⟨t, ht⟩
      | some (s, t2) =>
        rw [collectStep, hfy]
        by_cases hs : k = s
        · subst hs
          exact ⟨t2, upsert_lookup_self acc k t2⟩
        · rw [upsert_lookup_other acc s t2 k hs]
          exact ⟨t, ht⟩
    · rcases List.mem_cons.mp hx with rfl | hx2
      · left
        rw [collectStep, hfx]
        exact ⟨t, upsert_lookup_self acc k t⟩
      · exact Or.inr ⟨x, hx2, t, hfx⟩

theorem foldl_collect_lookup_unique {α : Type} (f : α → Option (String × String))
    (g : α → String) (hg : ∀ x s t, f x = some (s, t) → s = g x) (xs : List α)
    (hnodup : (xs.map g).Nodup) (x : α) (hx : x ∈ xs) (s t : String)
    (hfx : f x = some (s, t)) (acc : List (String × String)) :
    (xs.foldl (collectStep f) acc).lookup s = some t := by
  induction xs generalizing acc with
  | nil => simp at hx
  | cons y ys ih =>
    simp only [List.map_cons, List.nodup_cons] at hnodup
    simp only [List.foldl_cons]
    rcases List.mem_cons.mp hx with rfl | hx2
    · have hs : s = g x := hg x s t hfx
      rw [lookup_foldl_collect_frame f ys (collectStep f acc x) s ?_]
      · rw [collectStep, hfx]
        exact upsert_lookup_self acc s t
      · intro z hz s2 t2 hfz hs2
        apply hnodup.1
        have hgz : g x = g z := by rw [← hs, ← hs2]; exact hg z s2 t2 hfz
        rw [hgz]
        exact List.mem_map_of_mem g hz
    · exact ih hnodup.2 hx2 (collectStep f acc y)

theorem foldl_collect_eq_append {α : Type} (f : α → Option (String × String))
    (g : α → String) (v : α → String) (xs : List α)
    (hall : ∀ x ∈ xs, f x = some (g x, v x)) (hnodup : (xs.map g).Nodup)
    (acc : List (String × String)) (hacc : ∀ x ∈ xs, ∀ p ∈ acc, p.1 ≠ g x) :
    xs.foldl (collectStep f) acc = acc ++ xs.map (fun x => (g x, v x)) := by
  induction xs generalizing acc with
  | nil => simp
  | cons y ys ih =>
    simp only [List.map_cons, List.nodup_cons] at hnodup
    simp only [List.foldl_cons]
    have hstep : collectStep f acc y = acc ++ [(g y, v y)] := by
      rw [collectStep, hall y (by simp)]
      exact upsert_eq_append acc (g y) (v y) (hacc y (by simp))
    rw [hstep, ih (fun x hx => hall x (by simp [hx])) hnodup.2 (acc ++ [(g y, v y)]) ?_]
    · simp
    · intro x hx p hp
      rcases List.mem_append.mp hp with hp2 | hp2
      · exact hacc x (by simp [hx]) p hp2
      · simp at hp2
        subst hp2
        intro heq
        have heq2 : g y = g x := heq
        exact hnodup.1 (by rw [heq2]; exact List.mem_map_of_mem g hx)

/-! ## Invariants of the parsing and translation loops -/

theorem exists_of_findSome {α β : Type} (f : α → Option β) (l : List α) (b : β)
    (h : l.findSome? f = some b) : ∃ a ∈ l, f a = some b := by
  induction l with
  | nil => simp [List.findSome?] at h
  | cons x xs ih =>
    rw [List.findSome?_cons] at h
    match hfx : f x with
    | some b2 =>
      rw [hfx] at h
      simp at h
      exact ⟨x, by simp, by rw [hfx, h]⟩
    | none =>
      rw [hfx] at h
      rcases ih h with ⟨a, ha, hfa⟩
      exact ⟨a, by simp [ha], hfa⟩

theorem blockEntry_inv (block : Node) (s t : String) (h : blockEntry block = some (s, t)) :
    s ∈ zodiacSignKeys ∧ t ≠ "" := by
  rw [blockEntry] at h
  split at h
  · simp at h
  · simp only at h
    split at h
    · rename_i hcond
      simp at h
      rw [← h.1, ← h.2]
      exact ⟨hcond.2.2, hcond.2.1⟩
    · simp at h

theorem processLink_ne_empty (sign : String) (link : Node) (t : String)
    (h : processLink sign link = some t) : t ≠ "" := by
  rw [processLink] at h
  split at h
  · simp only at h
    split at h
    · simp at h
    · rename_i hne
      simp at h
      rw [← h]
      exact hne
  · simp at h

theorem altEntry_inv (links : List Node) (sign s t : String)
    (h : altEntry links sign = some (s, t)) : s = sign ∧ t ≠ "" := by
  rw [altEntry] at h
  rcases Option.map_eq_some'.mp h with ⟨t2, hfind, heq⟩
  injection heq with h1 h2
  subst h1
  subst h2
  rcases exists_of_findSome (processLink sign) links t2 hfind with ⟨link, _, hlink⟩
  exact ⟨rfl, processLink_ne_empty sign link t2 hlink⟩

theorem processBlocks_inv (blocks : List Node) (p : String × String)
    (hp : p ∈ processBlocks blocks) : p.1 ∈ zodiacSignKeys ∧ p.2 ≠ "" := by
  rw [processBlocks, collectEntries] at hp
  rcases mem_foldl_collect blockEntry blocks [] p hp with hq | ⟨block, _, hfa⟩
  · simp at hq
  · obtain ⟨a, b⟩ := p
    exact blockEntry_inv block a b hfa

theorem alternativeParsing_inv (soup : Node) (p : String × String)
    (hp : p ∈ alternativeParsing soup) : p.1 ∈ zodiacSignKeys ∧ p.2 ≠ "" := by
  rw [alternativeParsing, collectEntries] at hp
  rcases mem_foldl_collect _ zodiacSignKeys [] p hp with hq | ⟨sign, hsign, hfa⟩
  · simp at hq
  · obtain ⟨a, b⟩ := p
    rcases altEntry_inv _ sign a b hfa with ⟨rfl, hne⟩
    exact ⟨hsign, hne⟩

theorem parsePage_cases (soup : Node) :
    parsePage soup = [] ∨ (∃ blocks, parsePage soup = processBlocks blocks) ∨
      parsePage soup = alternativeParsing soup := by
  rw [parsePage, parsePageWithStrategy]
  simp only
  repeat' split
  all_goals
    first
      | exact Or.inl rfl
      | exact Or.inr (Or.inr rfl)
      | exact Or.inr (Or.inl ⟨_, rfl⟩)

theorem parsePage_inv (soup : Node) (p : String × String) (hp : p ∈ parsePage soup) :
    p.1 ∈ zodiacSignKeys ∧ p.2 ≠ "" := by
  rcases parsePage_cases soup with hc | ⟨blocks, hc⟩ | hc
  · rw [hc] at hp
    simp at hp
  · rw [hc] at hp
    exact processBlocks_inv blocks p hp
  · rw [hc] at hp
    exact alternativeParsing_inv soup p hp

theorem getAllHoroscopes_inv (net : List (Option Response)) (p : String × String)
    (hp : p ∈ (getAllHoroscopes net).1) : p.1 ∈ zodiacSignKeys ∧ p.2 ≠ "" := by
  match net with
  | [] => simp [getAllHoroscopes] at hp
  | none :: _ => simp [getAllHoroscopes] at hp
  | some response :: _ =>
    rw [getAllHoroscopes] at hp
    simp only at hp
    split at hp
    · simp at hp
    · exact parsePage_inv response.body p hp

theorem translatedEntry_inv (oracle : String → Option String) (q : String × String)
    (s t : String) (h : translatedEntry oracle q = some (s, t)) : s = q.1 ∧ t ≠ "" := by
  rw [translatedEntry] at h
  split at h
  · split at h
    · simp at h
    · rename_i htr hne
      simp at h
      exact ⟨h.1.symm, by rw [← h.2]; exact hne⟩
  · simp at h

theorem translateHoroscopes_inv (oracle : String → Option String)
    (hs : List (String × String)) (p : String × String)
    (hp : p ∈ translateHoroscopes oracle hs) : (∃ q ∈ hs, p.1 = q.1) ∧ p.2 ≠ "" := by
  rw [translateHoroscopes, collectEntries] at hp
  rcases mem_foldl_collect _ hs [] p hp with hq | ⟨q, hq, hfa⟩
  · simp at hq
  · obtain ⟨a, b⟩ := p
    rcases translatedEntry_inv oracle q a b hfa with ⟨heq, hne⟩
    exact ⟨⟨q, hq, heq⟩, hne⟩

theorem fetchAndTranslate_ret_inv (net : List (Option Response))
    (oracle : String → Option String) (cache : List (String × String))
    (p : String × String) (hp : p ∈ (fetchAndTranslateHoroscopes net oracle cache).2) :
    p.1 ∈ zodiacSignKeys ∧ p.2 ≠ "" := by
  rw [fetchAndTranslateHoroscopes] at hp
  simp only at hp
  split at hp
  · simp at hp
  · split at hp
    · simp at hp
    · rcases translateHoroscopes_inv oracle _ p hp with ⟨⟨q, hq, heq⟩, hne⟩
      refine ⟨?_, hne⟩
      rw [heq]
      exact (getAllHoroscopes_inv net q hq).1

theorem fetchAndTranslate_cache_of_ret_nil (net : List (Option Response))
    (oracle : String → Option String) (cache : List (String × String))
    (h : (fetchAndTranslateHoroscopes net oracle cache).2 = []) :
    (fetchAndTranslateHoroscopes net oracle cache).1 = cache := by
  rw [fetchAndTranslateHoroscopes] at h ⊢
  simp only at h ⊢
  by_cases h1 : (getAllHoroscopes net).1.isEmpty = true
  · rw [if_pos h1]
  · rw [if_neg h1] at h ⊢
    by_cases h2 : (translateHoroscopes oracle (getAllHoroscopes net).1).isEmpty = true
    · rw [if_pos h2]
    · rw [if_neg h2] at h
      simp only at h
      simp [h] at h2

/-! ## Concrete facts about the category registry, by evaluation -/

theorem zodiacKeys_nodup : zodiacSignKeys.Nodup := by decide

theorem zodiac_canonical :
    ∀ s ∈ zodiacSignKeys, pyLower (pyStrip s) = s ∧ s ≠ "" := by decide

theorem callback_facts :
    ∀ s ∈ zodiacSignKeys,
      pyStartsWith ("horoscope:" ++ s) "horoscope:" = true ∧
      (pySplit ("horoscope:" ++ s) ":").getD 1 "" = s := by decide

/-! ## Concrete documents, responses and oracles used as test inputs -/

/-- A well-formed structured block for leo whose paragraph is short. -/
def leoBlock : Node :=
  Node.elem "div" ["horoscope-content"] [
    Node.elem "h3" [] [Node.text "Leo"],
    Node.elem "p" [] [Node.text "Good day ahead."]]

/-- A structured block whose heading is not a zodiac sign; it contributes
nothing to the dict. -/
def junkBlock : Node :=
  Node.elem "div" ["horoscope-content"] [
    Node.elem "h3" [] [Node.text "Menu"]]

/-- A page holding only the leo block. -/
def soupLeo : Node :=
  Node.elem "html" [] [leoBlock]

/-- A successful response carrying `soupLeo`. -/
def okLeoResponse : Response :=
  ⟨200, soupLeo⟩

/-- A page with no candidate blocks at all, only a link mentioning leo. -/
def soupLinkOnly : Node :=
  Node.elem "html" [] [
    Node.elem "a" [] [Node.text "Leo brilliant fortunes await you today Read More"]]

/-- A translation oracle that fails on the text "bad" and otherwise answers
with the text prefixed by "ru ". -/
def demoOracle : String → Option String :=
  fun t => if t = "bad" then none else some ("ru " ++ t)

/-! ## Claim C1 -/

/-- Claim C1 (counterexample): the claim says a run in which every category
fails publishes an empty ForecastSet to the Cache, replacing any prior
contents.  On the code, a run whose fetch fails returns an empty dict but
leaves a non-empty prior cache exactly as it was. -/
theorem C1_counterexample :
    fetchAndTranslateHoroscopes [none] (fun _ => none) [("aries", "x")]
        = ([("aries", "x")], []) ∧
    ([("aries", "x")] : List (String × String)) ≠ [] := by
  exact ⟨by decide, by decide⟩

/-- Claim C1 (amended): a run in which all categories fail end-to-end returns
an empty dict normally (no exception escapes), but does not publish it: the
cache keeps its prior contents unchanged. -/
theorem C1_failed_run_keeps_cache (net : List (Option Response))
    (oracle : String → Option String) (cache : List (String × String))
    (h : (fetchAndTranslateHoroscopes net oracle cache).2 = []) :
    (fetchAndTranslateHoroscopes net oracle cache).1 = cache :=
  fetchAndTranslate_cache_of_ret_nil net oracle cache h

/-- Witness for C1: a concrete run in which the fetch fails outright. -/
theorem C1_witness :
    (fetchAndTranslateHoroscopes [none] (fun _ => none) [("aries", "x")]).2 = [] ∧
    (fetchAndTranslateHoroscopes [none] (fun _ => none) [("aries", "x")]).1
      = [("aries", "x")] :=
  ⟨by decide, C1_failed_run_keeps_cache [none] (fun _ => none) [("aries", "x")] (by decide)⟩

/-! ## Claim C2 -/

/-- Claim C2 (counterexample): the claim says the fetch is retried up to 3
attempts with a fixed delay before reporting failure.  On the code, a trace
whose first request fails and whose second and third requests would succeed
still reports failure, after exactly one request. -/
theorem C2_counterexample :
    (getAllHoroscopes [none, some okLeoResponse, some okLeoResponse]).2 = 1 ∧
    (getAllHoroscopes [none, some okLeoResponse, some okLeoResponse]).1 = [] ∧
    (getAllHoroscopes [some okLeoResponse]).1 ≠ [] := by
  refine ⟨rfl, rfl, by decide⟩

/-- Claim C2 (amended): the fetch performs exactly one HTTP request, with no
retry and no delay; a transport failure or error status on that single
request immediately yields the empty dict. -/
theorem C2_single_request (net : List (Option Response)) :
    (getAllHoroscopes net).2 = 1 ∧
    (∀ rest : List (Option Response), (getAllHoroscopes (none :: rest)).1 = []) ∧
    (∀ (r : Response) (rest : List (Option Response)),
      400 ≤ r.status → r.status < 600 → (getAllHoroscopes (some r :: rest)).1 = []) := by
  refine ⟨?_, fun rest => rfl, ?_⟩
  · match net with
    | [] => rfl
    | none :: _ => rfl
    | some r :: _ => rfl
  · intro r rest h1 h2
    show (if 400 ≤ r.status ∧ r.status < 600 then [] else parsePage r.body) = []
    rw [if_pos ⟨h1, h2⟩]

/-- Witness for C2: the single request is counted on a concrete trace; a
transport failure fails the run, and so does a concrete 503 response, even
though the trace offers a successful response to a second attempt that is
never made. -/
theorem C2_witness :
    (getAllHoroscopes [some ⟨503, soupLeo⟩, some okLeoResponse]).2 = 1 ∧
    (getAllHoroscopes [none]).1 = [] ∧
    (getAllHoroscopes [some ⟨503, soupLeo⟩, some okLeoResponse]).1 = [] :=
  ⟨(C2_single_request [some ⟨503, soupLeo⟩, some okLeoResponse]).1,
    (C2_single_request [some ⟨503, soupLeo⟩, some okLeoResponse]).2.1 [],
    (C2_single_request [some ⟨503, soupLeo⟩, some okLeoResponse]).2.2 ⟨503, soupLeo⟩
      [some okLeoResponse] (by decide) (by decide)⟩

/-! ## Claim C3 -/

/-- Claim C3 (counterexample): the claim says a fetch failure is scoped to one
category, its siblings staying present.  On the code there is one shared
request for all twelve categories: when it fails, the whole run yields the
empty dict, so leo is absent even though the very same page content would
have produced it. -/
theorem C3_counterexample :
    (getAllHoroscopes [none, some okLeoResponse]).1 = [] ∧
    (getAllHoroscopes [none, some okLeoResponse]).1.lookup "leo" = none ∧
    (getAllHoroscopes [some okLeoResponse]).1.lookup "leo" = some "Good day ahead." := by
  refine ⟨rfl, rfl, by decide⟩

/-- Claim C3 (amended): the fetch is one shared request, so a transport
failure makes every category absent (the run yields the empty dict); isolation
holds at the extraction stage instead: a block that yields a valid sign and
text puts its sign into the result no matter how the other blocks fail. -/
theorem C3_shared_fetch_extraction_isolation :
    (∀ rest : List (Option Response), (getAllHoroscopes (none :: rest)).1 = []) ∧
    (∀ blocks : List Node, ∀ block ∈ blocks, ∀ s t : String,
      blockEntry block = some (s, t) →
      ∃ t2, (processBlocks blocks).lookup s = some t2) := by
  refine ⟨fun rest => rfl, ?_⟩
  intro blocks block hb s t hbe
  rw [processBlocks, collectEntries]
  exact foldl_collect_key_present blockEntry blocks [] s (Or.inr ⟨block, hb, t, hbe⟩)

/-- Witness for C3: a failing run, and a block list where the leo block is
valid while its sibling block is junk. -/
theorem C3_witness :
    (getAllHoroscopes [none]).1 = [] ∧
    ∃ t2, (processBlocks [leoBlock, junkBlock]).lookup "leo" = some t2 :=
  ⟨C3_shared_fetch_extraction_isolation.1 [],
    C3_shared_fetch_extraction_isolation.2 [leoBlock, junkBlock] leoBlock (by simp)
      "leo" "Good day ahead." (by decide)⟩

/-! ## Claim C4 -/

/-- Claim C4 (counterexample): the claim says a structured-container paragraph
shorter than the minimum plausibility threshold (around 80 characters) is
rejected and extraction falls through.  On the code, the 15-character
paragraph "Good day ahead." is returned for leo. -/
theorem C4_counterexample :
    (getAllHoroscopes [some okLeoResponse]).1 = [("leo", "Good day ahead.")] ∧
    "Good day ahead.".length < 80 := by
  exact ⟨by decide, by decide⟩

/-- Claim C4 (amended): extraction has no minimum-length plausibility check at
all: a block entry is accepted exactly when the sign is a non-empty known
zodiac key and the text is non-empty, with no condition on the text length. -/
theorem C4_no_length_threshold (block : Node) (s t : String) :
    blockEntry block = some (s, t) ↔
      signOf block = some s ∧ s ≠ "" ∧ s ∈ zodiacSignKeys ∧ textOf block = t ∧ t ≠ "" := by
  constructor
  · intro h
    rw [blockEntry] at h
    split at h
    · simp at h
    · rename_i sign hsign
      simp only at h
      split at h
      · rename_i hcond
        simp at h
        obtain ⟨rfl, rfl⟩ := h
        exact ⟨hsign, hcond.1, hcond.2.2, rfl, hcond.2.1⟩
      · simp at h
  · rintro ⟨hsign, hs, hmem, ht, htne⟩
    rw [blockEntry, hsign]
    simp only
    rw [ht, if_pos ⟨hs, htne, hmem⟩]

/-! ## Claim C6 -/

/-- Claim C6 (counterexample): the claim says that when the structured
strategies fail, the link-text fallback is attempted before declaring
extraction failure.  On the code, a page with no candidate blocks at all is
declared failed (empty dict) without running `_alternative_parsing`, even
though that fallback would have found leo on the same page. -/
theorem C6_counterexample :
    parsePageWithStrategy soupLinkOnly = ([], Strategy.noBlocks) ∧
    alternativeParsing soupLinkOnly = [("leo", "brilliant fortunes await you today")] := by
  exact ⟨by decide, by decide⟩

/-- Claim C6 (amended): when neither `div.horoscope-content` blocks nor
`a.horoscope-card` blocks are found, the parser returns the empty dict
immediately and the link-text fallback is not attempted; the fallback runs
only when candidate blocks were found but stored nothing. -/
theorem C6_fallback_needs_blocks (soup : Node)
    (h1 : findAllTagCls "div" "horoscope-content" soup = [])
    (h2 : findAllTagCls "a" "horoscope-card" soup = []) :
    parsePageWithStrategy soup = ([], Strategy.noBlocks) := by
  rw [parsePageWithStrategy]
  simp [h1, h2]

/-- Witness for C6: the concrete link-only page has neither kind of block. -/
theorem C6_witness :
    parsePageWithStrategy soupLinkOnly = ([], Strategy.noBlocks) :=
  C6_fallback_needs_blocks soupLinkOnly (by rfl) (by rfl)

/-! ## Claim C10 -/

/-- Claim C10: every entry of the dict returned by `get_all_horoscopes` has a
key among the twelve zodiac identifiers and a non-empty text, on both the
block path and the link-scan fallback; consequently the published cache
contents satisfy the same invariant. -/
theorem C10_output_invariant :
    (∀ (net : List (Option Response)) (p : String × String),
      p ∈ (getAllHoroscopes net).1 → p.1 ∈ zodiacSignKeys ∧ p.2 ≠ "") ∧
    (∀ (net : List (Option Response)) (oracle : String → Option String)
      (cache : List (String × String)) (p : String × String),
      p ∈ (fetchAndTranslateHoroscopes net oracle cache).2 →
      p.1 ∈ zodiacSignKeys ∧ p.2 ≠ "") :=
  ⟨getAllHoroscopes_inv, fetchAndTranslate_ret_inv⟩

/-- Witness for C10: a concrete parsed entry and a concrete published entry. -/
theorem C10_witness :
    (("leo", "Good day ahead.") ∈ (getAllHoroscopes [some okLeoResponse]).1 →
      ("leo" : String) ∈ zodiacSignKeys ∧ ("Good day ahead." : String) ≠ "") ∧
    (("leo" : String) ∈ zodiacSignKeys ∧ ("Good day ahead." : String) ≠ "") ∧
    (("leo", "ru Good day ahead.")
        ∈ (fetchAndTranslateHoroscopes [some okLeoResponse] demoOracle []).2 ∧
      ("leo" : String) ∈ zodiacSignKeys ∧ ("ru Good day ahead." : String) ≠ "") :=
  ⟨fun h => C10_output_invariant.1 [some okLeoResponse] ("leo", "Good day ahead.") h,
    C10_output_invariant.1 [some okLeoResponse] ("leo", "Good day ahead.") (by decide),
    by decide,
    C10_output_invariant.2 [some okLeoResponse] demoOracle [] ("leo", "ru Good day ahead.")
      (by decide)⟩

/-! ## Claim C7 -/

/-- Claim C7: `handle_sign_selection` returns the cached text when the sign is
present in a non-empty cache (without refreshing), triggers exactly one
refresh when the cache is empty, and reports unavailability without any
refresh when the cache is non-empty but the sign is missing. -/
theorem C7_lookup_contract (net : List (Option Response))
    (oracle : String → Option String) (cache : List (String × String))
    (sign t : String) (hsign : sign ∈ zodiacSignKeys) :
    (cache.lookup sign = some t → t ≠ "" →
      handleSignSelection net oracle ("horoscope:" ++ sign) cache
        = (Reply.horoscope ((zodiacSigns.lookup sign).getD sign) t, cache, 0)) ∧
    (cache = [] →
      (handleSignSelection net oracle ("horoscope:" ++ sign) cache).2.2 = 1) ∧
    (cache ≠ [] → cache.lookup sign = none →
      handleSignSelection net oracle ("horoscope:" ++ sign) cache
        = (Reply.unavailable, cache, 0)) := by
  have hcb := callback_facts sign hsign
  have hsplit2 : (pySplit ("horoscope:" ++ sign) ":")[1]?.getD "" = sign := by
    simpa using hcb.2
  refine ⟨?_, ?_, ?_⟩
  · intro hlook htne
    have hne : cache.isEmpty = false := by
      cases cache
      · exact absurd hlook (by simp [List.lookup])
      · rfl
    simp [handleSignSelection, hcb.1, hsplit2, hne, hlook, htne]
  · intro hc
    subst hc
    simp only [handleSignSelection, hcb.1, if_true, hcb.2]
    split
    · split <;> rfl
    · rfl
  · intro hc hlook
    have hne : cache.isEmpty = false := by
      cases cache
      · exact absurd rfl hc
      · rfl
    simp [handleSignSelection, hcb.1, hsplit2, hne, hlook]

/-- Witness for C7: the three behaviours at concrete states. -/
theorem C7_witness :
    handleSignSelection [none] (fun _ => none) ("horoscope:" ++ "aries") [("aries", "x")]
      = (Reply.horoscope "Овен" "x", [("aries", "x")], 0) ∧
    (handleSignSelection [none] (fun _ => none) ("horoscope:" ++ "aries") []).2.2 = 1 ∧
    handleSignSelection [none] (fun _ => none) ("horoscope:" ++ "leo") [("aries", "x")]
      = (Reply.unavailable, [("aries", "x")], 0) := by
  refine ⟨?_, ?_, ?_⟩
  · have h := (C7_lookup_contract [none] (fun _ => none) [("aries", "x")] "aries" "x"
      (by decide)).1 (by decide) (by decide)
    rw [h]
    decide
  · exact (C7_lookup_contract [none] (fun _ => none) [] "aries" "x" (by decide)).2.1 rfl
  · exact (C7_lookup_contract [none] (fun _ => none) [("aries", "x")] "leo" "x"
      (by decide)).2.2 (by decide) (by decide)

/-! ## Claim C8 -/

/-- Claim C8 (counterexample): the claim says a lookup of an identifier that
is not a zodiac category triggers no refresh.  On the code, any lookup
arriving at an empty cache triggers a refresh first, including a lookup of
"unknown_sign": here the refresh count is 1, not 0. -/
theorem C8_counterexample :
    (handleSignSelection [none] (fun _ => none) "horoscope:unknown_sign" []).2.2 = 1 ∧
    (handleSignSelection [none] (fun _ => none) "horoscope:unknown_sign" []).1
      = Reply.unavailable := by
  exact ⟨by decide, by decide⟩

/-- Claim C8 (amended): a lookup of an identifier outside the twelve always
answers "unavailable" (such a key is never produced by the pipeline, so it is
never in a cache the pipeline filled); it triggers no refresh exactly when the
cache is non-empty, while an empty cache triggers the usual single refresh,
and a non-empty cache is left unchanged. -/
theorem C8_unknown_sign (net : List (Option Response))
    (oracle : String → Option String) (cache : List (String × String)) (sign : String)
    (hkeys : ∀ p ∈ cache, p.1 ∈ zodiacSignKeys)
    (hsign : sign ∉ zodiacSignKeys)
    (hstart : pyStartsWith ("horoscope:" ++ sign) "horoscope:" = true)
    (hsplit : (pySplit ("horoscope:" ++ sign) ":").getD 1 "" = sign) :
    (handleSignSelection net oracle ("horoscope:" ++ sign) cache).1 = Reply.unavailable ∧
    (handleSignSelection net oracle ("horoscope:" ++ sign) cache).2.2
      = (if cache.isEmpty then 1 else 0) ∧
    (cache ≠ [] →
      (handleSignSelection net oracle ("horoscope:" ++ sign) cache).2.1 = cache) := by
  have hsplit2 : (pySplit ("horoscope:" ++ sign) ":")[1]?.getD "" = sign := by
    simpa using hsplit
  match hcache : cache with
  | [] =>
    have hlook : (fetchAndTranslateHoroscopes net oracle []).2.lookup sign = none := by
      apply lookup_eq_none_of_keys
      intro p hp heq
      exact hsign (heq ▸ (fetchAndTranslate_ret_inv net oracle [] p hp).1)
    refine ⟨?_, ?_, fun hc => absurd rfl hc⟩
    · simp [handleSignSelection, hstart, hsplit2, hlook]
    · simp [handleSignSelection, hstart, hsplit2, hlook]
  | p0 :: rest =>
    have hlook : ((p0 :: rest) : List (String × String)).lookup sign = none := by
      apply lookup_eq_none_of_keys
      intro p hp heq
      exact hsign (heq ▸ (hkeys p hp))
    refine ⟨?_, ?_, fun _ => ?_⟩
    · simp [handleSignSelection, hstart, hsplit2, hlook]
    · simp [handleSignSelection, hstart, hsplit2, hlook]
    · simp [handleSignSelection, hstart, hsplit2, hlook]

/-- Witness for C8: the concrete unknown identifier "unknown_sign" against a
non-empty cache. -/
theorem C8_witness :
    (handleSignSelection [none] (fun _ => none) ("horoscope:" ++ "unknown_sign")
        [("aries", "x")]).1 = Reply.unavailable ∧
    (handleSignSelection [none] (fun _ => none) ("horoscope:" ++ "unknown_sign")
        [("aries", "x")]).2.2
      = (if ([("aries", "x")] : List (String × String)).isEmpty then 1 else 0) ∧
    (handleSignSelection [none] (fun _ => none) ("horoscope:" ++ "unknown_sign")
        [("aries", "x")]).2.1 = [("aries", "x")] := by
  have h := C8_unknown_sign [none] (fun _ => none) [("aries", "x")] "unknown_sign"
    (by decide) (by decide) (by decide) (by decide)
  exact ⟨h.1, h.2.1, h.2.2 (by decide)⟩

/-! ## Claim C9 -/

theorem key_unique (hs : List (String × String)) (hnodup : (hs.map Prod.fst).Nodup)
    (s t t2 : String) (h1 : (s, t) ∈ hs) (h2 : (s, t2) ∈ hs) : t = t2 := by
  induction hs with
  | nil => simp at h1
  | cons p rest ih =>
    simp only [List.map_cons, List.nodup_cons] at hnodup
    rcases List.mem_cons.mp h1 with heq1 | h1b
    · rcases List.mem_cons.mp h2 with heq2 | h2b
      · rw [← heq1] at heq2
        injection heq2 with _ hv
        exact hv.symm
      · exfalso
        apply hnodup.1
        rw [← heq1]
        show s ∈ List.map Prod.fst rest
        exact List.mem_map.mpr ⟨(s, t2), h2b, rfl⟩
    · rcases List.mem_cons.mp h2 with heq2 | h2b
      · exfalso
        apply hnodup.1
        rw [← heq2]
        show s ∈ List.map Prod.fst rest
        exact List.mem_map.mpr ⟨(s, t), h1b, rfl⟩
      · exact ih hnodup.2 h1b h2b

/-- Claim C9: with distinct category keys, a translation failure for one
category only removes that category from the translated dict (the loop does
not abort: it is a total function and sibling categories translated
successfully are present with their translations), and a non-empty translated
dict is exactly what the orchestrator publishes as the new cache. -/
theorem C9_translation_isolation (oracle : String → Option String)
    (hs : List (String × String)) (s t : String)
    (hnodup : (hs.map Prod.fst).Nodup) :
    ((s, t) ∈ hs → translatedEntry oracle (s, t) = none →
      (translateHoroscopes oracle hs).lookup s = none) ∧
    (∀ r, (s, t) ∈ hs → translatedEntry oracle (s, t) = some (s, r) →
      (translateHoroscopes oracle hs).lookup s = some r) ∧
    (∀ (net : List (Option Response)) (cache : List (String × String)),
      (getAllHoroscopes net).1 = hs → translateHoroscopes oracle hs ≠ [] →
      (fetchAndTranslateHoroscopes net oracle cache).1 = translateHoroscopes oracle hs) := by
  refine ⟨?_, ?_, ?_⟩
  · intro hmem hnone
    rw [translateHoroscopes, collectEntries]
    rw [lookup_foldl_collect_frame (translatedEntry oracle) hs [] s ?_]
    · simp [List.lookup]
    · intro x hx s2 t2 hsome heq
      subst heq
      obtain ⟨a, b⟩ := x
      have hk : s2 = a := (translatedEntry_inv oracle (a, b) s2 t2 hsome).1
      subst hk
      have hb : b = t := key_unique hs hnodup s2 b t hx hmem
      subst hb
      rw [hnone] at hsome
      exact Option.noConfusion hsome
  · intro r hmem hsome
    rw [translateHoroscopes, collectEntries]
    exact foldl_collect_lookup_unique (translatedEntry oracle) Prod.fst
      (fun x s2 t2 h => (translatedEntry_inv oracle x s2 t2 h).1) hs hnodup
      (s, t) hmem s r hsome []
  · intro net cache hhs hne
    have hsne : hs ≠ [] := by
      intro h0
      subst h0
      exact hne rfl
    have h1 : ((getAllHoroscopes net).1).isEmpty = false := by
      rw [hhs]
      cases hs
      · exact absurd rfl hsne
      · rfl
    have h2 : (translateHoroscopes oracle (getAllHoroscopes net).1).isEmpty = false := by
      rw [hhs]
      rcases h3 : translateHoroscopes oracle hs with _ | ⟨a, l⟩
      · exact absurd h3 hne
      · rfl
    rw [fetchAndTranslateHoroscopes]
    simp only
    rw [if_neg (by simp [h1]), if_neg (by simp [h2]), hhs]

/-- Witness for C9: the oracle fails on the text of "leo" and succeeds on the
text of "aries"; the failing category is absent, the sibling is present with
its translation, and a concrete run publishes the translated dict. -/
theorem C9_witness :
    (translateHoroscopes demoOracle [("aries", "good"), ("leo", "bad")]).lookup "leo"
      = none ∧
    (translateHoroscopes demoOracle [("aries", "good"), ("leo", "bad")]).lookup "aries"
      = some "ru good" ∧
    (fetchAndTranslateHoroscopes [some okLeoResponse] demoOracle []).1
      = translateHoroscopes demoOracle [("leo", "Good day ahead.")] := by
  refine ⟨?_, ?_, ?_⟩
  · exact (C9_translation_isolation demoOracle [("aries", "good"), ("leo", "bad")]
      "leo" "bad" (by decide)).1 (by decide) (by decide)
  · exact (C9_translation_isolation demoOracle [("aries", "good"), ("leo", "bad")]
      "aries" "good" (by decide)).2.1 "ru good" (by decide) (by decide)
  · exact (C9_translation_isolation demoOracle [("leo", "Good day ahead.")]
      "leo" "Good day ahead." (by decide)).2.2 [some okLeoResponse] [] (by decide) (by decide)

/-! ## Claim C5 -/

theorem str_append_empty (s : String) : s ++ "" = s := by
  simp

/-- A well-formed structured block: the designated container with a heading
holding the sign and one paragraph holding the forecast text. -/
def mkBlock (sign text2 : String) : Node :=
  Node.elem "div" ["horoscope-content"] [
    Node.elem "h3" [] [Node.text sign],
    Node.elem "p" [] [Node.text text2]]

/-- A well-formed structured page: one such block per zodiac sign, with the
per-sign forecast given by `content`. -/
def mkStructuredPage (content : String → String) : Node :=
  Node.elem "html" [] (zodiacSignKeys.map (fun s => mkBlock s (content s)))

theorem filter_descList_blocks (signs : List String) (content : String → String) :
    (descList (signs.map (fun s => mkBlock s (content s)))).filter
        (fun n => n.isElem "div" && n.hasCls "horoscope-content")
      = signs.map (fun s => mkBlock s (content s)) := by
  induction signs with
  | nil => rfl
  | cons s ss ih =>
    have hb : (fun n => Node.isElem n "div" && Node.hasCls n "horoscope-content")
        (mkBlock s (content s)) = true := rfl
    have hin : (Node.descendants (mkBlock s (content s))).filter
        (fun n => Node.isElem n "div" && Node.hasCls n "horoscope-content") = [] := rfl
    simp only [List.map_cons, descList, List.filter_cons, List.filter_append, hb, hin,
      if_true, List.nil_append, ih, List.singleton_append]

theorem findAll_structured (content : String → String) :
    findAllTagCls "div" "horoscope-content" (mkStructuredPage content)
      = zodiacSignKeys.map (fun s => mkBlock s (content s)) := by
  rw [findAllTagCls, mkStructuredPage]
  rw [show Node.descendants (Node.elem "html" []
      (zodiacSignKeys.map (fun s => mkBlock s (content s))))
    = descList (zodiacSignKeys.map (fun s => mkBlock s (content s))) from rfl]
  exact filter_descList_blocks zodiacSignKeys content

theorem signOf_mkBlock (s c : String) :
    signOf (mkBlock s c) = some (pyLower (pyStrip (s ++ ""))) := rfl

theorem textOf_mkBlock (s c : String) (hc : pyStrip c = c) (hcne : c ≠ "") :
    textOf (mkBlock s c) = c := by
  have h0 : textOf (mkBlock s c) =
      (if pyStrip (c ++ "") = "" then
        pyStrip (pyReplace (pyStrip (Node.innerText (mkBlock s c))) "Read More" "")
      else pyStrip (c ++ "")) := rfl
  rw [h0, str_append_empty, hc, if_neg hcne]

theorem blockEntry_mkBlock (s c : String) (hcan : pyLower (pyStrip s) = s) (hsne : s ≠ "")
    (hmem : s ∈ zodiacSignKeys) (hc : pyStrip c = c) (hcne : c ≠ "") :
    blockEntry (mkBlock s c) = some (s, c) := by
  rw [blockEntry, signOf_mkBlock, str_append_empty, hcan]
  simp only
  rw [textOf_mkBlock s c hc hcne, if_pos ⟨hsne, hcne, hmem⟩]

theorem processBlocks_structured (content : String → String)
    (hyp : ∀ s ∈ zodiacSignKeys, pyStrip (content s) = content s ∧ content s ≠ "") :
    processBlocks (zodiacSignKeys.map (fun s => mkBlock s (content s)))
      = zodiacSignKeys.map (fun s => (s, content s)) := by
  have hall : ∀ s ∈ zodiacSignKeys,
      blockEntry (mkBlock s (content s)) = some (s, content s) := by
    intro s hsm
    rcases zodiac_canonical s hsm with ⟨hcan, hne⟩
    rcases hyp s hsm with ⟨hstrip, hcne⟩
    exact blockEntry_mkBlock s (content s) hcan hne hsm hstrip hcne
  have hnod : (zodiacSignKeys.map (fun s => s)).Nodup := by
    simpa using zodiacKeys_nodup
  have h := foldl_collect_eq_append (fun s => blockEntry (mkBlock s (content s)))
    (fun s => s) content zodiacSignKeys hall hnod [] (by simp)
  rw [processBlocks, collectEntries, List.foldl_map]
  simpa using h

theorem lookup_map_diag (l : List String) (f : String → String) (s : String)
    (hnd : l.Nodup) (hs : s ∈ l) :
    (l.map (fun x => (x, f x))).lookup s = some (f s) := by
  induction l with
  | nil => simp at hs
  | cons a l ih =>
    rcases List.mem_cons.mp hs with rfl | hs2
    · simp [List.lookup]
    · have hne : s ≠ a := by
        rintro rfl
        exact (List.nodup_cons.mp hnd).1 hs2
      simp only [List.map_cons, List.lookup, beq_eq_false_iff_ne.mpr hne]
      exact ih (List.nodup_cons.mp hnd).2 hs2

/-- Claim C5: for all twelve categories, a well-formed structured page whose
designated containers hold plausible-length paragraphs parses on the
structured-container branch alone — the dict is exactly sign to paragraph
text, no other strategy runs (there is no longest-paragraph heuristic in the
code at all, and the link scan is not invoked) — and looking up any of the
twelve signs yields exactly its paragraph text. -/
theorem C5_structured_priority (content : String → String)
    (hgood : ∀ s ∈ zodiacSignKeys,
      pyStrip (content s) = content s ∧ content s ≠ "" ∧ 80 < (content s).length) :
    parsePageWithStrategy (mkStructuredPage content)
        = (zodiacSignKeys.map (fun s => (s, content s)), Strategy.structuredDiv) ∧
    ∀ s ∈ zodiacSignKeys,
      (parsePage (mkStructuredPage content)).lookup s = some (content s) := by
  have hblocks := findAll_structured content
  have hpb := processBlocks_structured content
    (fun s hsm => ⟨(hgood s hsm).1, (hgood s hsm).2.1⟩)
  have hmain : parsePageWithStrategy (mkStructuredPage content)
      = (zodiacSignKeys.map (fun s => (s, content s)), Strategy.structuredDiv) := by
    rw [parsePageWithStrategy, hblocks]
    have hne : (zodiacSignKeys.map (fun s => mkBlock s (content s))).isEmpty = false := rfl
    simp only [hne, Bool.false_eq_true, if_false, hpb]
    have hlen : (zodiacSignKeys.map (fun s => (s, content s))).length = 12 := rfl
    rw [hlen]
    simp
  refine ⟨hmain, ?_⟩
  intro s hsm
  rw [parsePage, hmain]
  exact lookup_map_diag zodiacSignKeys content s zodiacKeys_nodup hsm

/-- The plausible-length forecast used by the C5 witness (88 characters). -/
def plausibleText : String :=
  "The stars are lining up to bring patience, focus and a calm sense of good fortune today."

/-- Witness for C5: a concrete well-formed page carrying `plausibleText` for
every sign. -/
theorem C5_witness :
    parsePageWithStrategy (mkStructuredPage (fun _ => plausibleText))
        = (zodiacSignKeys.map (fun s => (s, plausibleText)), Strategy.structuredDiv) ∧
    (parsePage (mkStructuredPage (fun _ => plausibleText))).lookup "leo"
      = some plausibleText := by
  have h := C5_structured_priority (fun _ => plausibleText) (by decide)
  exact ⟨h.1, h.2 "leo" (by decide)⟩
